import Mathlib

/-!
Verification of the data-controller pipeline of the `level2_klue-nlp-02`
relation-extraction repository.  Sentences are embedded as `List Char`,
pandas DataFrames as lists of rows (with an explicit integer index where the
code uses pandas index labels), and fallible operations return `Except`.
All definitions are translated from `src/utils/data_controller.py`.
-/

/-- The opening marker `"[ENT] "` inserted by `add_entity_tokens_base`. -/
def entOpenTok : List Char := "[ENT] ".toList

/-- The closing marker `" [/ENT] "` inserted by `add_entity_tokens_base`. -/
def entCloseTok : List Char := " [/ENT] ".toList

/-- One step of Python's insertion sort in descending order: insert `x` into a
descending-sorted list, as used to model `sorted(l, reverse=True)`. -/
def insertDesc (x : Nat) : List Nat → List Nat
  | [] => [x]
  | y :: t => if x ≥ y then x :: y :: t else y :: insertDesc x t

/-- Model of Python's `sorted(l, reverse=True)` on a list of naturals. -/
def sortDesc : List Nat → List Nat
  | [] => []
  | x :: t => insertDesc x (sortDesc t)

/-- The body of the `for check, idx in enumerate(sorted(...))` loop of
`DataCleaning.add_entity_tokens_base`: at even `check` the closing marker is
spliced in right after position `idx`, at odd `check` the opening marker is
spliced in right before position `idx`. -/
def baseLoop : List (Nat × Nat) → List Char → List Char
  | [], s => s
  | (check, idx) :: rest, s =>
      if check % 2 = 0 then
        baseLoop rest (s.take (idx + 1) ++ entCloseTok ++ s.drop (idx + 1))
      else
        baseLoop rest (s.take idx ++ entOpenTok ++ s.drop idx)

/-- `DataCleaning.add_entity_tokens_base` applied to one row: the four span
boundary offsets are sorted in descending order and processed by `baseLoop`. -/
def add_entity_tokens_base (s : List Char) (ss se os oe : Nat) : List Char :=
  baseLoop (List.enum (sortDesc [ss, se, os, oe])) s

/-- The role-and-type token `f"O:{object_type}"` / `f"S:{subject_type}"` chosen
from the `trigger` flag in `DataCleaning.add_entity_tokens_detail`. -/
def roleTok (stype otype : List Char) (trigger : Bool) : List Char :=
  if trigger then "O:".toList ++ otype else "S:".toList ++ stype

/-- The opening tag `f"[{token}] "` of `add_entity_tokens_detail`. -/
def openTag (token : List Char) : List Char := "[".toList ++ token ++ "] ".toList

/-- The closing tag `f" [/{token}] "` of `add_entity_tokens_detail`. -/
def closeTag (token : List Char) : List Char := " [/".toList ++ token ++ "] ".toList

/-- The loop of `DataCleaning.add_entity_tokens_detail`: like `baseLoop` but
the tag text is chosen from the mutable `trigger` flag, which is negated after
every odd-rank (opening-tag) insertion. -/
def detailLoop (stype otype : List Char) : List (Nat × Nat) → List Char → Bool → List Char
  | [], s, _ => s
  | (check, idx) :: rest, s, trigger =>
      let token := roleTok stype otype trigger
      if check % 2 = 0 then
        detailLoop stype otype rest (s.take (idx + 1) ++ closeTag token ++ s.drop (idx + 1)) trigger
      else
        detailLoop stype otype rest (s.take idx ++ openTag token ++ s.drop idx) (!trigger)

/-- `DataCleaning.add_entity_tokens_detail` applied to one row; the initial
trigger flag is `True if row['object_end_idx'] > row['subject_end_idx']`. -/
def add_entity_tokens_detail (s : List Char) (ss se os oe : Nat)
    (stype otype : List Char) : List Char :=
  detailLoop stype otype (List.enum (sortDesc [ss, se, os, oe])) s (decide (se < oe))

/-- The sequence of `trigger` values used by the loop of
`add_entity_tokens_detail`, one per inserted tag in processing order (the flag
is negated after each odd-rank insertion, exactly as in `detailLoop`). -/
def roleSeqLoop : List (Nat × Nat) → Bool → List Bool
  | [], _ => []
  | (check, _) :: rest, trigger =>
      trigger :: roleSeqLoop rest (if check % 2 = 0 then trigger else !trigger)

/-- Role flags used at the four insertions of `add_entity_tokens_detail`,
`true` meaning the `O:` role, in descending-offset processing order. -/
def detailRoleSeq (ss se os oe : Nat) : List Bool :=
  roleSeqLoop (List.enum (sortDesc [ss, se, os, oe])) (decide (se < oe))

/-- Modelled from the spec's words, for comparison with the code: "the role
label flips each time a boundary belonging to the trigger entity (the one
whose end offset is larger) is crossed" while the four boundary offsets are
processed in descending order.  Stated as: between consecutive insertions the
role flag changes exactly when the earlier processed offset is a boundary of
the trigger entity. -/
def claimC2FlipRule (ss se os oe : Nat) : Prop :=
  ∀ k, k < 3 →
    ((detailRoleSeq ss se os oe).getD (k + 1) false ≠ (detailRoleSeq ss se os oe).getD k false
      ↔ (sortDesc [ss, se, os, oe]).getD k 0 ∈ (if se < oe then [os, oe] else [ss, se]))

/-- A row of the working DataFrame after `entity_parsing`: the fields read by
`add_others_tokens` and `Dataloader.tokenizing` (other columns are not
consulted by the operations verified here). -/
structure Row where
  sentence : List Char
  subject_entity : List Char
  object_entity : List Char
deriving DecidableEq

/-- The character class of the fixed Unicode-range regex
`[ぁ-ゔァ-ヴー々〆〤一-龥]` of `DataCleaning.add_others_tokens`. -/
def isJP (c : Char) : Bool :=
  (0x3041 ≤ c.toNat && c.toNat ≤ 0x3094) ||
  (0x30A1 ≤ c.toNat && c.toNat ≤ 0x30F4) ||
  c.toNat = 0x30FC || c.toNat = 0x3005 || c.toNat = 0x3006 || c.toNat = 0x3024 ||
  (0x4E00 ≤ c.toNat && c.toNat ≤ 0x9FA5)

/-- The replacement token `"[OTH]"` of `add_others_tokens`. -/
def othTok : List Char := "[OTH]".toList

/-- Regex substitution of every maximal run matching `[class]+` by `othTok`:
the flag records whether we are inside a matched run (so the token is emitted
once per maximal run, as `re`-style substitution of a greedy `+` does). -/
def subOthAux : Bool → List Char → List Char
  | _, [] => []
  | inRun, c :: t =>
      if isJP c then (if inRun then [] else othTok) ++ subOthAux true t
      else c :: subOthAux false t

/-- Substitution of each maximal Japanese-script run by `"[OTH]"`, the
`Series.replace(regex=True)` call of `add_others_tokens` on one string. -/
def subOth (s : List Char) : List Char := subOthAux false s

/-- `DataCleaning.add_others_tokens`: the substitution is applied to the
`sentence` column only. -/
def add_others_tokens (df : List Row) : List Row :=
  df.map fun r => { r with sentence := subOth r.sentence }

/-- Modelled from the spec's words, for comparison with the code: the
substitution "applied independently to `sentence`, `subject_entity`, and
`object_entity` fields" of every row. -/
def add_others_tokens_allFields (df : List Row) : List Row :=
  df.map fun r =>
    { sentence := subOth r.sentence
      subject_entity := subOth r.subject_entity
      object_entity := subOth r.object_entity }

/-- The separator `" [SEP] "` used by `Dataloader.tokenizing`. -/
def sepTok : List Char := " [SEP] ".toList

/-- `Dataloader.tokenizing` up to the external tokenizer call: the per-row
first text `obj_ent + " [SEP] " + sub_ent` is accumulated over the zipped
entity columns, and the tokenizer pairs it elementwise with the sentence
column. -/
def Dataloader.tokenizing (df : List Row) : List (List Char × List Char) :=
  let concat_entity :=
    ((df.map Row.subject_entity).zip (df.map Row.object_entity)).foldl
      (fun acc p => acc ++ [p.2 ++ sepTok ++ p.1]) []
  concat_entity.zip (df.map Row.sentence)

/-- A pandas DataFrame with integer index labels: each row carries its index
label (`Prod.fst`) and its payload (`Prod.snd`). -/
abbrev CTable (α : Type) : Type := List (Nat × α)

/-- `DataCleaning.continue_list`, the names skipped outside training mode. -/
def continue_list : List String := ["remove_duplicated"]

/-- The hard-coded duplicate index labels of `DataCleaning.remove_duplicated`. -/
def del_idx : List Nat := [6749, 8364, 22258, 277, 10202, 4212]

/-- `DataCleaning.remove_duplicated`: `df.drop(del_idx)` raises a `KeyError`
when any of the labels is absent from the index (pandas default
`errors='raise'`); otherwise the rows with those labels are dropped and
`reset_index(drop=True)` renumbers the remainder from 0. -/
def remove_duplicated {α : Type} (df : CTable α) : Except String (CTable α) :=
  if del_idx.all (fun i => (df.map Prod.fst).contains i) then
    Except.ok (List.enum ((df.filter (fun r => !(del_idx.contains r.1))).map Prod.snd))
  else
    Except.error "KeyError"

/-- `DataCleaning.process`: walks the configured name list; outside training
mode the names of `continue_list` are skipped; each remaining name is resolved
against the object's methods (`eval("self." + name)`), an unresolved name or a
raising method aborting the run. -/
def DataCleaning.process {α : Type}
    (lookup : String → Option (CTable α → Except String (CTable α)))
    (train : Bool) : List String → CTable α → Except String (CTable α)
  | [], df => Except.ok df
  | name :: rest, df =>
      if !train && continue_list.contains name then
        DataCleaning.process lookup train rest df
      else
        match lookup name with
        | none => Except.error name
        | some m =>
            match m df with
            | Except.error e => Except.error e
            | Except.ok df2 => DataCleaning.process lookup train rest df2

/-- The augmentation accumulation loop of `DataAugmentation.process`: each
configured method is resolved by name and applied to the *original* table
`df`, its output concatenated onto the accumulator `aug_df`. -/
def DataAugmentation.buildAug {β : Type} (lookup : String → Option (List β → List β))
    (df : List β) : List String → List β → Except String (List β)
  | [], acc => Except.ok acc
  | name :: rest, acc =>
      match lookup name with
      | none => Except.error name
      | some m => DataAugmentation.buildAug lookup df rest (acc ++ m df)

/-- `DataAugmentation.process`: with an empty selection the table is returned
unchanged; otherwise the accumulated augmented rows are concatenated onto the
original table. -/
def DataAugmentation.process {β : Type} (lookup : String → Option (List β → List β))
    (names : List String) (df : List β) : Except String (List β) :=
  if names.isEmpty then Except.ok df
  else
    match DataAugmentation.buildAug lookup df names [] with
    | Except.error e => Except.error e
    | Except.ok aug => Except.ok (df ++ aug)

/-- Whether an `Except` computation returned normally. -/
def exceptIsOk {ε α : Type} : Except ε α → Bool
  | Except.ok _ => true
  | Except.error _ => false

/-- The literal `"[SUB]"` masking token. -/
def subTok : List Char := "[SUB]".toList

/-- The literal `"[OB]"` masking token. -/
def obTok : List Char := "[OB]".toList

/-- Index of the first occurrence of `w` as a contiguous substring, the search
`str.find` / `str.replace` performs. -/
def findSub (w : List Char) : List Char → Option Nat
  | [] => if w.isPrefixOf ([] : List Char) then some 0 else none
  | c :: t => if w.isPrefixOf (c :: t) then some 0 else (findSub w t).map (· + 1)

/-- Python's `s.replace(w, r, 1)`: the first occurrence of `w` is replaced by
`r`; a string without an occurrence is returned unchanged. -/
def replaceFirst (s w r : List Char) : List Char :=
  match findSub w s with
  | none => s
  | some i => s.take i ++ r ++ s.drop (i + w.length)

/-- Modelled from the spec: the entity-masking operation is described in the
spec but absent from `src/` ("replace the subject span with a literal `[SUB]`
token and the object span with `[OB]` token, substring-replacing whichever
entity appears first in the sentence first"). -/
def mask_entity (s subj obj : List Char) : List Char :=
  let si := (findSub subj s).getD s.length
  let oi := (findSub obj s).getD s.length
  if si ≤ oi then replaceFirst (replaceFirst s subj subTok) obj obTok
  else replaceFirst (replaceFirst s obj obTok) subj subTok

/-- The `Dataset` class: tokenizer output as a keyed family of tensor rows,
plus the (possibly empty) target list. -/
structure Dataset (α β : Type) where
  inputs : List (String × List α)
  targets : List β

/-- The dict comprehension of `Dataset.__getitem__`: every keyed tensor is
indexed at `i` (`clone().detach()` leaves the value unchanged); an
out-of-range index raises. -/
def itemInputs {α : Type} (i : Nat) : List (String × List α) → Option (List (String × α))
  | [] => some []
  | (k, v) :: rest =>
      match v.get? i with
      | none => none
      | some x => (itemInputs i rest).map (fun l => (k, x) :: l)

/-- `Dataset.__getitem__`: with a non-empty target list (Python truthiness)
the pair of the indexed input mapping and the indexed target is returned,
otherwise the input mapping alone. -/
def Dataset.getItem {α β : Type} (d : Dataset α β) (i : Nat) :
    Option ((List (String × α)) ⊕ (List (String × α) × β)) :=
  match itemInputs i d.inputs with
  | none => none
  | some inp =>
      if d.targets.isEmpty then some (Sum.inl inp)
      else
        match d.targets.get? i with
        | none => none
        | some t => some (Sum.inr (inp, t))

/-- `Dataset.__len__`: `len(self.inputs['input_ids'])` (a missing key
raises). -/
def Dataset.len {α β : Type} (d : Dataset α β) : Option Nat :=
  (d.inputs.lookup "input_ids").map List.length

/-- A toy augmentation method table used to instantiate the augmentation
theorems at a concrete input: the single method `"rev"` reverses the table. -/
def revLookup : String → Option (List Nat → List Nat) :=
  fun n => if n = "rev" then some List.reverse else none

/-- A concrete training table whose index holds all six hard-coded duplicate
labels plus one ordinary row, used to instantiate the duplicate-removal
theorem. -/
def c5df : CTable Nat :=
  [(6749, 1), (8364, 2), (22258, 3), (277, 4), (10202, 5), (4212, 6), (0, 9)]

/-- A concrete two-key, two-row tokenizer output with one target, used to
instantiate the `Dataset` indexing theorem. -/
def c9ds : Dataset Nat Nat :=
  ⟨[("input_ids", [10, 11]), ("attention_mask", [1, 1])], [5]⟩

/-! Helper lemmas about splicing text into a list at a known offset. -/

theorem take_len_app {α : Type} (u v : List α) (n : Nat) (h : n = u.length) :
    (u ++ v).take n = u := by
  subst h
  induction u with
  | nil => simp
  | cons x u ih => simp [ih]

theorem drop_len_app {α : Type} (u v : List α) (n : Nat) (h : n = u.length) :
    (u ++ v).drop n = v := by
  subst h
  induction u with
  | nil => simp
  | cons x u ih => simp [ih]

theorem splice_at (u v w : List Char) (n : Nat) (h : n = u.length) :
    (u ++ v).take n ++ w ++ (u ++ v).drop n = u ++ (w ++ v) := by
  rw [take_len_app u v n h, drop_len_app u v n h, List.append_assoc]

/-! Sorting the four boundary offsets: with `a ≤ b < c ≤ d` the descending
sort of the four offsets is `[d, c, b, a]`, whichever pair names the subject
span. -/

theorem sortDesc_lo_hi (a b c d : Nat) (hab : a ≤ b) (hbc : b < c) (hcd : c ≤ d) :
    sortDesc [a, b, c, d] = [d, c, b, a] := by
  have h1 : insertDesc c [d] = [d, c] := by
    by_cases h : c ≥ d
    · have hq : c = d := Nat.le_antisymm hcd h
      subst hq
      simp [insertDesc]
    · simp [insertDesc, h]
  have h2 : insertDesc b [d, c] = [d, c, b] := by
    simp [insertDesc, show ¬ b ≥ d by omega, show ¬ b ≥ c by omega]
  have h3 : insertDesc a [d, c, b] = [d, c, b, a] := by
    by_cases h : a ≥ b
    · have hq : a = b := Nat.le_antisymm hab h
      subst hq
      simp [insertDesc, show ¬ a ≥ d by omega, show ¬ a ≥ c by omega]
    · simp [insertDesc, show ¬ a ≥ d by omega, show ¬ a ≥ c by omega, h]
  simp only [sortDesc]
  rw [show insertDesc d ([] : List Nat) = [d] from rfl, h1, h2, h3]

theorem sortDesc_hi_lo (a b c d : Nat) (hab : a ≤ b) (hbc : b < c) (hcd : c ≤ d) :
    sortDesc [c, d, a, b] = [d, c, b, a] := by
  have h1 : insertDesc a [b] = [b, a] := by
    by_cases h : a ≥ b
    · have hq : a = b := Nat.le_antisymm hab h
      subst hq
      simp [insertDesc]
    · simp [insertDesc, h]
  have h2 : insertDesc d [b, a] = [d, b, a] := by
    simp [insertDesc, show d ≥ b by omega]
  have h3 : insertDesc c [d, b, a] = [d, c, b, a] := by
    by_cases h : c ≥ d
    · have hq : c = d := Nat.le_antisymm hcd h
      subst hq
      simp [insertDesc, show c ≥ b by omega]
    · simp [insertDesc, h, show c ≥ b by omega]
  simp only [sortDesc]
  rw [show insertDesc b ([] : List Nat) = [b] from rfl, h1, h2, h3]

/-- Processing the descending-sorted offsets `[d, c, b, a]` of a sentence
decomposed as `t1 ++ t2 ++ t3 ++ t4 ++ t5` (spans `t2` and `t4`) splices the
four generic markers around the two spans and keeps every original character
in place. -/
theorem baseLoop_core (t1 t2 t3 t4 t5 : List Char) (a b c d : Nat)
    (ha : a = t1.length) (hb : b + 1 = t1.length + t2.length)
    (hc : c = t1.length + t2.length + t3.length)
    (hd : d + 1 = t1.length + t2.length + t3.length + t4.length) :
    baseLoop [(0, d), (1, c), (2, b), (3, a)] (t1 ++ t2 ++ t3 ++ t4 ++ t5) =
      t1 ++ entOpenTok ++ t2 ++ entCloseTok ++ t3 ++ entOpenTok ++ t4 ++ entCloseTok ++ t5 := by
  calc
    baseLoop [(0, d), (1, c), (2, b), (3, a)] (t1 ++ t2 ++ t3 ++ t4 ++ t5)
        = baseLoop [(1, c), (2, b), (3, a)]
            ((t1 ++ t2 ++ t3 ++ t4 ++ t5).take (d + 1) ++ entCloseTok ++
              (t1 ++ t2 ++ t3 ++ t4 ++ t5).drop (d + 1)) := rfl
    _ = baseLoop [(1, c), (2, b), (3, a)]
          ((t1 ++ t2 ++ t3 ++ t4) ++ (entCloseTok ++ t5)) := by
          rw [splice_at (t1 ++ t2 ++ t3 ++ t4) t5 entCloseTok (d + 1)
            (by simp [List.length_append]; omega)]
    _ = baseLoop [(1, c), (2, b), (3, a)]
          ((t1 ++ t2 ++ t3) ++ (t4 ++ (entCloseTok ++ t5))) := by
          rw [List.append_assoc (t1 ++ t2 ++ t3) t4 (entCloseTok ++ t5)]
    _ = baseLoop [(2, b), (3, a)]
          (((t1 ++ t2 ++ t3) ++ (t4 ++ (entCloseTok ++ t5))).take c ++ entOpenTok ++
            ((t1 ++ t2 ++ t3) ++ (t4 ++ (entCloseTok ++ t5))).drop c) := rfl
    _ = baseLoop [(2, b), (3, a)]
          ((t1 ++ t2 ++ t3) ++ (entOpenTok ++ (t4 ++ (entCloseTok ++ t5)))) := by
          rw [splice_at (t1 ++ t2 ++ t3) (t4 ++ (entCloseTok ++ t5)) entOpenTok c
            (by simp [List.length_append]; omega)]
    _ = baseLoop [(2, b), (3, a)]
          ((t1 ++ t2) ++ (t3 ++ (entOpenTok ++ (t4 ++ (entCloseTok ++ t5))))) := by
          rw [List.append_assoc (t1 ++ t2) t3 (entOpenTok ++ (t4 ++ (entCloseTok ++ t5)))]
    _ = baseLoop [(3, a)]
          (((t1 ++ t2) ++ (t3 ++ (entOpenTok ++ (t4 ++ (entCloseTok ++ t5))))).take (b + 1) ++
            entCloseTok ++
            ((t1 ++ t2) ++ (t3 ++ (entOpenTok ++ (t4 ++ (entCloseTok ++ t5))))).drop (b + 1)) := rfl
    _ = baseLoop [(3, a)]
          ((t1 ++ t2) ++ (entCloseTok ++ (t3 ++ (entOpenTok ++ (t4 ++ (entCloseTok ++ t5)))))) := by
          rw [splice_at (t1 ++ t2) (t3 ++ (entOpenTok ++ (t4 ++ (entCloseTok ++ t5))))
            entCloseTok (b + 1) (by simp [List.length_append]; omega)]
    _ = baseLoop [(3, a)]
          (t1 ++ (t2 ++ (entCloseTok ++ (t3 ++ (entOpenTok ++ (t4 ++ (entCloseTok ++ t5))))))) := by
          rw [List.append_assoc t1 t2
            (entCloseTok ++ (t3 ++ (entOpenTok ++ (t4 ++ (entCloseTok ++ t5)))))]
    _ = (t1 ++ (t2 ++ (entCloseTok ++ (t3 ++ (entOpenTok ++ (t4 ++ (entCloseTok ++ t5))))))).take a ++
          entOpenTok ++
          (t1 ++ (t2 ++ (entCloseTok ++ (t3 ++ (entOpenTok ++ (t4 ++ (entCloseTok ++ t5))))))).drop a := rfl
    _ = t1 ++ (entOpenTok ++ (t2 ++ (entCloseTok ++ (t3 ++ (entOpenTok ++ (t4 ++ (entCloseTok ++ t5))))))) := by
          rw [splice_at t1 (t2 ++ (entCloseTok ++ (t3 ++ (entOpenTok ++ (t4 ++ (entCloseTok ++ t5))))))
            entOpenTok a ha]
    _ = t1 ++ entOpenTok ++ t2 ++ entCloseTok ++ t3 ++ entOpenTok ++ t4 ++ entCloseTok ++ t5 := by
          simp [List.append_assoc]

/-- C1: for every record whose subject and object spans are non-overlapping,
correctly ordered and within the sentence (equivalently: the sentence splits
as `t1 ++ t2 ++ t3 ++ t4 ++ t5` with the two nonempty spans at `t2` and `t4`,
in either subject/object order), `add_entity_tokens_base` — which sorts the
four boundary offsets in descending order and inserts the closing marker
right after an even-rank offset and the opening marker right before an
odd-rank offset — returns the sentence with exactly the 4 markers inserted
around the two spans and every character outside (indeed also inside) the
spans unchanged and in original order. -/
theorem c1_base_tag_insertion (s t1 t2 t3 t4 t5 : List Char) (ss se os oe : Nat)
    (hs : s = t1 ++ t2 ++ t3 ++ t4 ++ t5)
    (ht2 : t2 ≠ []) (ht4 : t4 ≠ [])
    (horder :
      (ss = t1.length ∧ se + 1 = t1.length + t2.length ∧
        os = t1.length + t2.length + t3.length ∧
        oe + 1 = t1.length + t2.length + t3.length + t4.length) ∨
      (os = t1.length ∧ oe + 1 = t1.length + t2.length ∧
        ss = t1.length + t2.length + t3.length ∧
        se + 1 = t1.length + t2.length + t3.length + t4.length)) :
    add_entity_tokens_base s ss se os oe =
      t1 ++ entOpenTok ++ t2 ++ entCloseTok ++ t3 ++ entOpenTok ++ t4 ++ entCloseTok ++ t5 := by
  subst hs
  have h2 : 0 < t2.length := List.length_pos.mpr ht2
  have h4 : 0 < t4.length := List.length_pos.mpr ht4
  rcases horder with ⟨e1, e2, e3, e4⟩ | ⟨e1, e2, e3, e4⟩
  · have hsort : sortDesc [ss, se, os, oe] = [oe, os, se, ss] :=
      sortDesc_lo_hi ss se os oe (by omega) (by omega) (by omega)
    unfold add_entity_tokens_base
    rw [hsort, show List.enum [oe, os, se, ss] = [(0, oe), (1, os), (2, se), (3, ss)] from rfl]
    exact baseLoop_core t1 t2 t3 t4 t5 ss se os oe e1 (by omega) (by omega) (by omega)
  · have hsort : sortDesc [ss, se, os, oe] = [se, ss, oe, os] :=
      sortDesc_hi_lo os oe ss se (by omega) (by omega) (by omega)
    unfold add_entity_tokens_base
    rw [hsort, show List.enum [se, ss, oe, os] = [(0, se), (1, ss), (2, oe), (3, os)] from rfl]
    exact baseLoop_core t1 t2 t3 t4 t5 os oe ss se e1 (by omega) (by omega) (by omega)

/-- Witness for C1: the sentence `"x ab cd."` with subject span `[2,3]`
(`"ab"`) and object span `[5,6]` (`"cd"`). -/
theorem c1_base_tag_insertion_witness :
    ("x ab cd.".toList =
        "x ".toList ++ "ab".toList ++ " ".toList ++ "cd".toList ++ ".".toList) ∧
      add_entity_tokens_base "x ab cd.".toList 2 3 5 6 =
        "x ".toList ++ entOpenTok ++ "ab".toList ++ entCloseTok ++ " ".toList ++
          entOpenTok ++ "cd".toList ++ entCloseTok ++ ".".toList :=
  ⟨by decide,
    c1_base_tag_insertion "x ab cd.".toList "x ".toList "ab".toList " ".toList "cd".toList
      ".".toList 2 3 5 6 (by decide) (by decide) (by decide) (Or.inl (by decide))⟩

/-- Like `baseLoop_core` but for the role-and-type variant: the first two
insertions (around the later span `t4`) carry the role of the initial trigger
flag `tr`, the trigger is negated after the second (opening-tag) insertion,
and the last two insertions (around the earlier span `t2`) carry the negated
role. -/
theorem detailLoop_core (st ot : List Char) (t1 t2 t3 t4 t5 : List Char) (a b c d : Nat)
    (tr : Bool)
    (ha : a = t1.length) (hb : b + 1 = t1.length + t2.length)
    (hc : c = t1.length + t2.length + t3.length)
    (hd : d + 1 = t1.length + t2.length + t3.length + t4.length) :
    detailLoop st ot [(0, d), (1, c), (2, b), (3, a)] (t1 ++ t2 ++ t3 ++ t4 ++ t5) tr =
      t1 ++ openTag (roleTok st ot (!tr)) ++ t2 ++ closeTag (roleTok st ot (!tr)) ++ t3 ++
        openTag (roleTok st ot tr) ++ t4 ++ closeTag (roleTok st ot tr) ++ t5 := by
  calc
    detailLoop st ot [(0, d), (1, c), (2, b), (3, a)] (t1 ++ t2 ++ t3 ++ t4 ++ t5) tr
        = detailLoop st ot [(1, c), (2, b), (3, a)]
            ((t1 ++ t2 ++ t3 ++ t4 ++ t5).take (d + 1) ++ closeTag (roleTok st ot tr) ++
              (t1 ++ t2 ++ t3 ++ t4 ++ t5).drop (d + 1)) tr := rfl
    _ = detailLoop st ot [(1, c), (2, b), (3, a)]
          ((t1 ++ t2 ++ t3) ++ (t4 ++ (closeTag (roleTok st ot tr) ++ t5))) tr := by
          rw [splice_at (t1 ++ t2 ++ t3 ++ t4) t5 (closeTag (roleTok st ot tr)) (d + 1)
            (by simp [List.length_append]; omega),
            List.append_assoc (t1 ++ t2 ++ t3) t4 (closeTag (roleTok st ot tr) ++ t5)]
    _ = detailLoop st ot [(2, b), (3, a)]
          (((t1 ++ t2 ++ t3) ++ (t4 ++ (closeTag (roleTok st ot tr) ++ t5))).take c ++
            openTag (roleTok st ot tr) ++
            ((t1 ++ t2 ++ t3) ++ (t4 ++ (closeTag (roleTok st ot tr) ++ t5))).drop c) (!tr) := rfl
    _ = detailLoop st ot [(2, b), (3, a)]
          ((t1 ++ t2) ++ (t3 ++ (openTag (roleTok st ot tr) ++
            (t4 ++ (closeTag (roleTok st ot tr) ++ t5))))) (!tr) := by
          rw [splice_at (t1 ++ t2 ++ t3) (t4 ++ (closeTag (roleTok st ot tr) ++ t5))
            (openTag (roleTok st ot tr)) c (by simp [List.length_append]; omega),
            List.append_assoc (t1 ++ t2) t3
              (openTag (roleTok st ot tr) ++ (t4 ++ (closeTag (roleTok st ot tr) ++ t5)))]
    _ = detailLoop st ot [(3, a)]
          (((t1 ++ t2) ++ (t3 ++ (openTag (roleTok st ot tr) ++
              (t4 ++ (closeTag (roleTok st ot tr) ++ t5))))).take (b + 1) ++
            closeTag (roleTok st ot (!tr)) ++
            ((t1 ++ t2) ++ (t3 ++ (openTag (roleTok st ot tr) ++
              (t4 ++ (closeTag (roleTok st ot tr) ++ t5))))).drop (b + 1)) (!tr) := rfl
    _ = detailLoop st ot [(3, a)]
          (t1 ++ (t2 ++ (closeTag (roleTok st ot (!tr)) ++ (t3 ++ (openTag (roleTok st ot tr) ++
            (t4 ++ (closeTag (roleTok st ot tr) ++ t5))))))) (!tr) := by
          rw [splice_at (t1 ++ t2)
            (t3 ++ (openTag (roleTok st ot tr) ++ (t4 ++ (closeTag (roleTok st ot tr) ++ t5))))
            (closeTag (roleTok st ot (!tr))) (b + 1) (by simp [List.length_append]; omega),
            List.append_assoc t1 t2 (closeTag (roleTok st ot (!tr)) ++
              (t3 ++ (openTag (roleTok st ot tr) ++ (t4 ++ (closeTag (roleTok st ot tr) ++ t5)))))]
    _ = (t1 ++ (t2 ++ (closeTag (roleTok st ot (!tr)) ++ (t3 ++ (openTag (roleTok st ot tr) ++
          (t4 ++ (closeTag (roleTok st ot tr) ++ t5))))))).take a ++
          openTag (roleTok st ot (!tr)) ++
          (t1 ++ (t2 ++ (closeTag (roleTok st ot (!tr)) ++ (t3 ++ (openTag (roleTok st ot tr) ++
            (t4 ++ (closeTag (roleTok st ot tr) ++ t5))))))).drop a := rfl
    _ = t1 ++ (openTag (roleTok st ot (!tr)) ++ (t2 ++ (closeTag (roleTok st ot (!tr)) ++
          (t3 ++ (openTag (roleTok st ot tr) ++ (t4 ++ (closeTag (roleTok st ot tr) ++ t5))))))) := by
          rw [splice_at t1
            (t2 ++ (closeTag (roleTok st ot (!tr)) ++ (t3 ++ (openTag (roleTok st ot tr) ++
              (t4 ++ (closeTag (roleTok st ot tr) ++ t5))))))
            (openTag (roleTok st ot (!tr))) a ha]
    _ = t1 ++ openTag (roleTok st ot (!tr)) ++ t2 ++ closeTag (roleTok st ot (!tr)) ++ t3 ++
          openTag (roleTok st ot tr) ++ t4 ++ closeTag (roleTok st ot tr) ++ t5 := by
          simp [List.append_assoc]

/-- C2 (amended): `add_entity_tokens_detail` initialises the trigger role to
`O` exactly when the object span's end offset is larger than the subject's,
and the role label of the inserted tag is negated after each odd-rank
(opening-tag) insertion — not at each boundary of the trigger entity — so the
later span is wrapped in the trigger entity's own role-and-type tags and the
earlier span in the other entity's tags. -/
theorem c2_detail_tag_insertion (s t1 t2 t3 t4 t5 stype otype early late : List Char)
    (ss se os oe : Nat)
    (hs : s = t1 ++ t2 ++ t3 ++ t4 ++ t5)
    (ht2 : t2 ≠ []) (ht4 : t4 ≠ [])
    (horder :
      (ss = t1.length ∧ se + 1 = t1.length + t2.length ∧
        os = t1.length + t2.length + t3.length ∧
        oe + 1 = t1.length + t2.length + t3.length + t4.length ∧
        early = "S:".toList ++ stype ∧ late = "O:".toList ++ otype) ∨
      (os = t1.length ∧ oe + 1 = t1.length + t2.length ∧
        ss = t1.length + t2.length + t3.length ∧
        se + 1 = t1.length + t2.length + t3.length + t4.length ∧
        early = "O:".toList ++ otype ∧ late = "S:".toList ++ stype)) :
    add_entity_tokens_detail s ss se os oe stype otype =
      t1 ++ openTag early ++ t2 ++ closeTag early ++ t3 ++
        openTag late ++ t4 ++ closeTag late ++ t5 := by
  subst hs
  have h2 : 0 < t2.length := List.length_pos.mpr ht2
  have h4 : 0 < t4.length := List.length_pos.mpr ht4
  rcases horder with ⟨e1, e2, e3, e4, e5, e6⟩ | ⟨e1, e2, e3, e4, e5, e6⟩
  · subst e5
    subst e6
    have hsort : sortDesc [ss, se, os, oe] = [oe, os, se, ss] :=
      sortDesc_lo_hi ss se os oe (by omega) (by omega) (by omega)
    have htr : decide (se < oe) = true := decide_eq_true (by omega)
    unfold add_entity_tokens_detail
    rw [hsort, show List.enum [oe, os, se, ss] = [(0, oe), (1, os), (2, se), (3, ss)] from rfl,
      htr]
    have := detailLoop_core stype otype t1 t2 t3 t4 t5 ss se os oe true
      e1 (by omega) (by omega) (by omega)
    simpa [roleTok] using this
  · subst e5
    subst e6
    have hsort : sortDesc [ss, se, os, oe] = [se, ss, oe, os] :=
      sortDesc_hi_lo os oe ss se (by omega) (by omega) (by omega)
    have htr : decide (se < oe) = false := decide_eq_false (by omega)
    unfold add_entity_tokens_detail
    rw [hsort, show List.enum [se, ss, oe, os] = [(0, se), (1, ss), (2, oe), (3, os)] from rfl,
      htr]
    have := detailLoop_core stype otype t1 t2 t3 t4 t5 os oe ss se false
      e1 (by omega) (by omega) (by omega)
    simpa [roleTok] using this

/-- Witness for C2: sentence `"ab cd"`, subject span `[0,1]` of type `PER`,
object span `[3,4]` of type `ORG`; the object ends later, so it is the
trigger and both its tags carry the `O:ORG` role. -/
theorem c2_detail_tag_insertion_witness :
    ("ab cd".toList =
        "".toList ++ "ab".toList ++ " ".toList ++ "cd".toList ++ "".toList) ∧
      add_entity_tokens_detail "ab cd".toList 0 1 3 4 "PER".toList "ORG".toList =
        "".toList ++ openTag ("S:".toList ++ "PER".toList) ++ "ab".toList ++
          closeTag ("S:".toList ++ "PER".toList) ++ " ".toList ++
          openTag ("O:".toList ++ "ORG".toList) ++ "cd".toList ++
          closeTag ("O:".toList ++ "ORG".toList) ++ "".toList :=
  ⟨by decide,
    c2_detail_tag_insertion "ab cd".toList "".toList "ab".toList " ".toList "cd".toList
      "".toList "PER".toList "ORG".toList ("S:".toList ++ "PER".toList)
      ("O:".toList ++ "ORG".toList) 0 1 3 4 (by decide) (by decide) (by decide)
      (Or.inl (by decide))⟩

/-- Counterexample for C2 as stated: at sentence `"ab cd"` with subject span
`[0,1]` and object span `[3,4]` the object is the trigger entity, its end
offset `4` is the rank-0 processed boundary, yet the role labels of the
rank-0 and rank-1 tags are both `O` — the label does not flip at that trigger
boundary (it flips only after opening-tag insertions), refuting the claimed
flip rule; the full output exhibits both trigger tags with the same role. -/
theorem c2_flip_counterexample :
    add_entity_tokens_detail "ab cd".toList 0 1 3 4 "PER".toList "ORG".toList =
        "[S:PER] ab [/S:PER]  [O:ORG] cd [/O:ORG] ".toList ∧
      ¬ claimC2FlipRule 0 1 3 4 := by
  constructor
  · decide
  · intro h
    exact absurd (h 0 (by omega)) (by decide)

/-- Counterexample for C3 as stated: with sentence `"AB was written by CD."`,
subject span `[19,20]` and object span `[0,1]`, `add_entity_tokens_base` does
not return `"[ENT] AB [/ENT] was written by [ENT] CD [/ENT]."` (the span
`[19,20]` covers `"D."` rather than `"CD"`, and each inserted marker carries
its own surrounding spaces, which the claimed string omits). -/
theorem c3_example_counterexample :
    add_entity_tokens_base "AB was written by CD.".toList 19 20 0 1 ≠
      "[ENT] AB [/ENT] was written by [ENT] CD [/ENT].".toList := by
  decide

/-- C3 (amended): on that record the generic tag insertion actually returns
`"[ENT] AB [/ENT]  was written by C[ENT] D. [/ENT] "` — the closing marker of
the span `[19,20]` lands after the final character, the opening marker lands
before offset 19 (splitting `"CD"`), and the inserted markers contribute the
double space after the first closing tag. -/
theorem c3_example_amended :
    add_entity_tokens_base "AB was written by CD.".toList 19 20 0 1 =
      "[ENT] AB [/ENT]  was written by C[ENT] D. [/ENT] ".toList := by
  decide

/-- Every configured augmentation method is applied to the *original* table
`df` and appended to the accumulator, so when every name resolves the
accumulation loop returns the accumulator followed by the independently
derived tables in configuration order. -/
theorem buildAug_ok {β : Type} (lookup : String → Option (List β → List β)) (df : List β) :
    ∀ (names : List String) (acc : List β),
      (∀ n ∈ names, (lookup n).isSome) →
      DataAugmentation.buildAug lookup df names acc =
        Except.ok (acc ++ ((names.filterMap lookup).map (fun m => m df)).flatten) := by
  intro names
  induction names with
  | nil => intro acc h; simp [DataAugmentation.buildAug]
  | cons n rest ih =>
    intro acc h
    obtain ⟨m, hm⟩ := Option.isSome_iff_exists.mp (h n (by simp))
    have hrest : ∀ x ∈ rest, (lookup x).isSome := fun x hx => h x (by simp [hx])
    simp only [DataAugmentation.buildAug, hm, List.filterMap_cons]
    rw [ih (acc ++ m df) hrest]
    simp [List.append_assoc]

/-- When every name of the list resolves, `filterMap` keeps them all. -/
theorem filterMap_length_all_isSome {β : Type} (lookup : String → Option (List β → List β)) :
    ∀ names : List String, (∀ n ∈ names, (lookup n).isSome) →
      (names.filterMap lookup).length = names.length := by
  intro names
  induction names with
  | nil => intro h; simp
  | cons n rest ih =>
    intro h
    obtain ⟨m, hm⟩ := Option.isSome_iff_exists.mp (h n (by simp))
    have hrest : ∀ x ∈ rest, (lookup x).isSome := fun x hx => h x (by simp [hx])
    simp [List.filterMap_cons, hm, ih hrest]

/-- The concatenation of row-count-preserving method outputs on `df` has
`k * n` rows. -/
theorem join_map_length {β : Type} (df : List β) :
    ∀ fm : List (List β → List β), (∀ m ∈ fm, (m df).length = df.length) →
      ((fm.map (fun m => m df)).flatten).length = fm.length * df.length := by
  intro fm
  induction fm with
  | nil => intro h; simp
  | cons m rest ih =>
    intro h
    have hm : (m df).length = df.length := h m (by simp)
    have hrest : ∀ x ∈ rest, (x df).length = df.length := fun x hx => h x (by simp [hx])
    simp [List.flatten, hm, ih hrest]
    ring

/-- C4: with `k` configured augmentation operations that all resolve and all
preserve row count, `DataAugmentation.process` applies each operation
independently to the original table and returns the original table followed
by the `k` independently derived tables — `n * (k + 1)` rows in total. -/
theorem c4_augmentation_multiplicative {β : Type}
    (lookup : String → Option (List β → List β)) (names : List String) (df : List β)
    (hres : ∀ n ∈ names, (lookup n).isSome)
    (hlen : ∀ n ∈ names, ∀ m, lookup n = some m → ∀ l : List β, (m l).length = l.length) :
    DataAugmentation.process lookup names df =
        Except.ok (df ++ ((names.filterMap lookup).map (fun m => m df)).flatten) ∧
      (df ++ ((names.filterMap lookup).map (fun m => m df)).flatten).length =
        df.length * (names.length + 1) := by
  have hmem : ∀ m ∈ names.filterMap lookup, (m df).length = df.length := by
    intro m hm
    obtain ⟨n, hn, he⟩ := List.mem_filterMap.mp hm
    exact hlen n hn m he df
  constructor
  · cases hne : names with
    | nil => simp [DataAugmentation.process]
    | cons n rest =>
      subst hne
      simp only [DataAugmentation.process, List.isEmpty_cons, Bool.false_eq_true, if_false]
      rw [buildAug_ok lookup df (n :: rest) [] hres]
      simp
  · rw [List.length_append, join_map_length df (names.filterMap lookup) hmem,
      filterMap_length_all_isSome lookup names hres]
    ring

/-- Witness for C4: the single row-count-preserving method `"rev"` on a
3-row table yields the 6-row table `[1, 2, 3, 3, 2, 1]`. -/
theorem c4_augmentation_multiplicative_witness :
    DataAugmentation.process revLookup ["rev"] [1, 2, 3] =
        Except.ok ([1, 2, 3] ++ ((["rev"].filterMap revLookup).map (fun m => m [1, 2, 3])).flatten) ∧
      (([1, 2, 3] : List Nat) ++
          ((["rev"].filterMap revLookup).map (fun m => m [1, 2, 3])).flatten).length =
        ([1, 2, 3] : List Nat).length * (["rev"].length + 1) :=
  c4_augmentation_multiplicative revLookup ["rev"] [1, 2, 3] (by decide)
    (by
      intro n hn m hm l
      have hn' : n = "rev" := by simpa using hn
      subst hn'
      simp [revLookup] at hm
      subst hm
      simp)

/-- Counterexample for C5 as stated: a training table containing one of the
hard-coded duplicate index labels (277) but not the others does not get that
row removed and re-indexed — `df.drop(del_idx)` raises a `KeyError` for the
missing labels, so the operation fails instead of returning the empty
re-indexed table. -/
theorem c5_duplicate_removal_counterexample :
    remove_duplicated [(277, (0 : Nat))] ≠ Except.ok [] := by
  simp [show remove_duplicated [(277, (0 : Nat))] = Except.error "KeyError" from rfl]

/-- C5 (amended): in training mode, duplicate removal on a table whose index
contains *all* the hard-coded duplicate labels removes exactly the rows with
those labels (keeping the others in order) and re-indexes the remaining rows
contiguously from 0; outside training mode `DataCleaning.process` skips every
operation named in `continue_list` — in particular `remove_duplicated` —
entirely. -/
theorem c5_duplicate_removal {α : Type} (df dfc : CTable α)
    (lookup : String → Option (CTable α → Except String (CTable α)))
    (selectList : List String)
    (h : ∀ i ∈ del_idx, i ∈ df.map Prod.fst) :
    (remove_duplicated df =
        Except.ok (List.enum ((df.filter (fun r => !(del_idx.contains r.1))).map Prod.snd)) ∧
      (List.enum ((df.filter (fun r => !(del_idx.contains r.1))).map Prod.snd)).map Prod.fst =
        List.range ((df.filter (fun r => !(del_idx.contains r.1))).length) ∧
      (List.enum ((df.filter (fun r => !(del_idx.contains r.1))).map Prod.snd)).map Prod.snd =
        (df.filter (fun r => !(del_idx.contains r.1))).map Prod.snd) ∧
      DataCleaning.process lookup false selectList dfc =
        DataCleaning.process lookup false
          (selectList.filter (fun n => !(continue_list.contains n))) dfc := by
  constructor
  · have hcond : del_idx.all (fun i => (df.map Prod.fst).contains i) = true := by
      rw [List.all_eq_true]
      intro i hi
      simpa [List.elem_iff] using h i hi
    refine ⟨?_, ?_, List.enum_map_snd _⟩
    · unfold remove_duplicated
      rw [hcond]
      simp
    · rw [List.enum_map_fst, List.length_map]
  · induction selectList generalizing dfc with
    | nil => rfl
    | cons name rest ih =>
      by_cases hn : continue_list.contains name
      · simp only [DataCleaning.process, List.filter_cons, hn, Bool.not_true,
          Bool.false_and, Bool.not_false, Bool.true_and, if_false, Bool.and_true]
        simpa [hn] using ih dfc
      · have hn' : continue_list.contains name = false := by
          simpa using hn
        simp only [DataCleaning.process, List.filter_cons, hn', Bool.not_false]
        cases hl : lookup name with
        | none => simp
        | some m =>
          cases hm : m dfc with
          | error e => simp [hm]
          | ok df2 => simp only [hm]; exact ih df2

/-- Witness for C5 at the table `c5df` (all six duplicate labels present) and
a cleaning run with `select_list = ["remove_duplicated"]` outside training
mode. -/
theorem c5_duplicate_removal_witness :
    (∀ i ∈ del_idx, i ∈ c5df.map Prod.fst) ∧
      ((remove_duplicated c5df =
          Except.ok (List.enum ((c5df.filter (fun r => !(del_idx.contains r.1))).map Prod.snd)) ∧
        (List.enum ((c5df.filter (fun r => !(del_idx.contains r.1))).map Prod.snd)).map Prod.fst =
          List.range ((c5df.filter (fun r => !(del_idx.contains r.1))).length) ∧
        (List.enum ((c5df.filter (fun r => !(del_idx.contains r.1))).map Prod.snd)).map Prod.snd =
          (c5df.filter (fun r => !(del_idx.contains r.1))).map Prod.snd) ∧
        DataCleaning.process (fun _ => none) false ["remove_duplicated"] ([] : CTable Nat) =
          DataCleaning.process (fun _ => none) false
            (["remove_duplicated"].filter (fun n => !(continue_list.contains n)))
            ([] : CTable Nat)) :=
  ⟨by decide,
    c5_duplicate_removal c5df [] (fun _ => none) ["remove_duplicated"] (by decide)⟩

/-- An unresolved augmentation name anywhere in the configured list makes the
accumulation loop raise, whatever was accumulated before it. -/
theorem buildAug_unknown_fails {β : Type} (lookupA : String → Option (List β → List β))
    (dfA : List β) (name : String) (hunk : lookupA name = none) :
    ∀ (selA : List String) (acc : List β), name ∈ selA →
      exceptIsOk (DataAugmentation.buildAug lookupA dfA selA acc) = false := by
  intro selA
  induction selA with
  | nil => intro acc h; simp at h
  | cons n rest ih =>
    intro acc hmem
    cases hl : lookupA n with
    | none => simp [DataAugmentation.buildAug, hl, exceptIsOk]
    | some m =>
      have hmem' : name ∈ rest := by
        rcases List.mem_cons.mp hmem with h1 | h1
        · subst h1; rw [hunk] at hl; cases hl
        · exact h1
      simp only [DataAugmentation.buildAug, hl]
      exact ih (acc ++ m dfA) hmem'

/-- An unresolved cleaning name that is not skipped makes `process` raise. -/
theorem process_unknown_fails {α : Type}
    (lookupC : String → Option (CTable α → Except String (CTable α)))
    (train : Bool) (nameC : String) (hunk : lookupC nameC = none)
    (hskip : train = true ∨ continue_list.contains nameC = false) :
    ∀ (selC : List String) (dfC : CTable α), nameC ∈ selC →
      exceptIsOk (DataCleaning.process lookupC train selC dfC) = false := by
  intro selC
  induction selC with
  | nil => intro dfC h; simp at h
  | cons n rest ih =>
    intro dfC hmem
    by_cases hc : (!train && continue_list.contains n) = true
    · have hmem' : nameC ∈ rest := by
        rcases List.mem_cons.mp hmem with h1 | h1
        · exfalso
          have hc2 := hc
          rw [Bool.and_eq_true] at hc2
          obtain ⟨hta, hcb⟩ := hc2
          subst h1
          rcases hskip with hs | hs
          · rw [hs] at hta; simp at hta
          · rw [hs] at hcb; simp at hcb
        · exact h1
      simp only [DataCleaning.process, hc, if_true]
      exact ih dfC hmem'
    · have hc' : (!train && continue_list.contains n) = false := by simpa using hc
      simp only [DataCleaning.process, hc', Bool.false_eq_true, if_false]
      cases hl : lookupC n with
      | none => simp [hl, exceptIsOk]
      | some m =>
        have hmem' : nameC ∈ rest := by
          rcases List.mem_cons.mp hmem with h1 | h1
          · subst h1; rw [hunk] at hl; cases hl
          · exact h1
        cases hm : m dfC with
        | error e => simp [hl, hm, exceptIsOk]
        | ok df2 =>
          simp only [hl, hm]
          exact ih df2 hmem'

/-- C6: a configured operation list containing a name the cleaning or
augmentation object does not recognise makes the respective `process` fail
(no fallback, no partially processed table is returned); for the cleaning
stage the unknown name must not be one skipped outside training mode. -/
theorem c6_unknown_operation_fails {α β : Type}
    (lookupC : String → Option (CTable α → Except String (CTable α)))
    (lookupA : String → Option (List β → List β))
    (selC selA : List String) (nameC nameA : String) (train : Bool)
    (dfC : CTable α) (dfA : List β)
    (hmemC : nameC ∈ selC) (hunkC : lookupC nameC = none)
    (hskip : train = true ∨ continue_list.contains nameC = false)
    (hmemA : nameA ∈ selA) (hunkA : lookupA nameA = none) :
    exceptIsOk (DataCleaning.process lookupC train selC dfC) = false ∧
      exceptIsOk (DataAugmentation.process lookupA selA dfA) = false := by
  constructor
  · exact process_unknown_fails lookupC train nameC hunkC hskip selC dfC hmemC
  · cases selA with
    | nil => simp at hmemA
    | cons n rest =>
      have hb := buildAug_unknown_fails lookupA dfA nameA hunkA (n :: rest) [] hmemA
      simp only [DataAugmentation.process, List.isEmpty_cons, Bool.false_eq_true, if_false]
      cases hba : DataAugmentation.buildAug lookupA dfA (n :: rest) [] with
      | error e => simp [exceptIsOk]
      | ok aug =>
        rw [hba] at hb
        simp [exceptIsOk] at hb

/-- Witness for C6: the unknown names `"foo"` and `"bar"` under empty method
tables make both stages fail on concrete empty tables. -/
theorem c6_unknown_operation_fails_witness :
    ("foo" ∈ ["foo"]) ∧ ("bar" ∈ ["bar"]) ∧
      exceptIsOk (DataCleaning.process (fun _ => none) true ["foo"] ([] : CTable Nat)) = false ∧
      exceptIsOk (DataAugmentation.process (fun _ => none) ["bar"] ([] : List Nat)) = false := by
  have h := c6_unknown_operation_fails (fun _ => none) (fun _ => none) ["foo"] ["bar"]
    "foo" "bar" true ([] : CTable Nat) ([] : List Nat) (by decide) rfl (Or.inl rfl)
    (by decide) rfl
  exact ⟨by decide, by decide, h.1, h.2⟩

/-- `str.replace(w, r, 1)` at a known first-occurrence position: when the
first occurrence of `w` starts right after the prefix `t1`, the replacement
keeps `t1` and the tail intact and substitutes `r` for that occurrence. -/
theorem replaceFirst_at (t1 w rest r : List Char)
    (hfind : findSub w (t1 ++ w ++ rest) = some t1.length) :
    replaceFirst (t1 ++ w ++ rest) w r = t1 ++ r ++ rest := by
  have ht : (t1 ++ w ++ rest).take t1.length = t1 := by
    rw [List.append_assoc]
    exact take_len_app _ _ _ rfl
  have hd : (t1 ++ w ++ rest).drop (t1.length + w.length) = rest :=
    drop_len_app (t1 ++ w) rest _ (by simp)
  unfold replaceFirst
  rw [hfind]
  show (t1 ++ w ++ rest).take t1.length ++ r ++ (t1 ++ w ++ rest).drop (t1.length + w.length) =
    t1 ++ r ++ rest
  rw [ht, hd]

/-- C7 (spec-modelled): entity masking replaces exactly one subject span with
`[SUB]` and exactly one object span with `[OB]`, processing whichever entity
occurs first in the sentence first, and preserves all text outside both
spans — in either order of occurrence.  The sentence splits as
`t1 ++ w1 ++ t2 ++ w2 ++ t3` with `w1`/`w2` the first/second occurring entity
words; the `findSub` hypotheses state that each replacement finds exactly the
intended occurrence. -/
theorem c7_entity_masking (s t1 t2 t3 w1 w2 k1 k2 subj obj : List Char)
    (hs : s = t1 ++ w1 ++ t2 ++ w2 ++ t3)
    (hw1 : w1 ≠ [])
    (hrole :
      (w1 = subj ∧ w2 = obj ∧ k1 = subTok ∧ k2 = obTok) ∨
      (w1 = obj ∧ w2 = subj ∧ k1 = obTok ∧ k2 = subTok))
    (h1 : findSub w1 s = some t1.length)
    (h2 : findSub w2 s = some (t1.length + w1.length + t2.length))
    (h3 : findSub w2 (t1 ++ k1 ++ t2 ++ w2 ++ t3) = some (t1.length + k1.length + t2.length)) :
    mask_entity s subj obj = t1 ++ k1 ++ t2 ++ k2 ++ t3 := by
  subst hs
  have hlen1 : 0 < w1.length := List.length_pos.mpr hw1
  have hre : t1 ++ w1 ++ t2 ++ w2 ++ t3 = t1 ++ w1 ++ (t2 ++ w2 ++ t3) := by
    simp [List.append_assoc]
  rcases hrole with ⟨e1, e2, e3, e4⟩ | ⟨e1, e2, e3, e4⟩
  · subst e1
    subst e2
    subst e3
    subst e4
    unfold mask_entity
    rw [h1, h2]
    simp only [Option.getD_some]
    rw [if_pos (by omega)]
    have r1 : replaceFirst (t1 ++ w1 ++ t2 ++ w2 ++ t3) w1 subTok =
        t1 ++ subTok ++ t2 ++ w2 ++ t3 := by
      rw [hre] at h1 ⊢
      rw [replaceFirst_at t1 w1 (t2 ++ w2 ++ t3) subTok h1]
      simp [List.append_assoc]
    rw [r1]
    have h3' : findSub w2 ((t1 ++ subTok ++ t2) ++ w2 ++ t3) =
        some (t1 ++ subTok ++ t2).length := by
      have hlen : (t1 ++ subTok ++ t2).length = t1.length + subTok.length + t2.length := by
        rw [List.length_append, List.length_append]
      rw [hlen]
      exact h3
    exact replaceFirst_at (t1 ++ subTok ++ t2) w2 t3 obTok h3'
  · subst e1
    subst e2
    subst e3
    subst e4
    unfold mask_entity
    rw [h1, h2]
    simp only [Option.getD_some]
    rw [if_neg (by omega)]
    have r1 : replaceFirst (t1 ++ w1 ++ t2 ++ w2 ++ t3) w1 obTok =
        t1 ++ obTok ++ t2 ++ w2 ++ t3 := by
      rw [hre] at h1 ⊢
      rw [replaceFirst_at t1 w1 (t2 ++ w2 ++ t3) obTok h1]
      simp [List.append_assoc]
    rw [r1]
    have h3' : findSub w2 ((t1 ++ obTok ++ t2) ++ w2 ++ t3) =
        some (t1 ++ obTok ++ t2).length := by
      have hlen : (t1 ++ obTok ++ t2).length = t1.length + obTok.length + t2.length := by
        rw [List.length_append, List.length_append]
      rw [hlen]
      exact h3
    exact replaceFirst_at (t1 ++ obTok ++ t2) w2 t3 subTok h3'

/-- Witness for C7: sentence `"xaybz"`, subject word `"a"`, object word
`"b"` (subject occurs first), masked to `"x[SUB]y[OB]z"`. -/
theorem c7_entity_masking_witness :
    (findSub "a".toList "xaybz".toList = some 1) ∧
      (findSub "b".toList "xaybz".toList = some 3) ∧
      mask_entity "xaybz".toList "a".toList "b".toList = "x".toList ++ subTok ++ "y".toList ++ obTok ++ "z".toList :=
  ⟨by decide, by decide,
    c7_entity_masking "xaybz".toList "x".toList "y".toList "z".toList "a".toList "b".toList
      subTok obTok "a".toList "b".toList (by decide) (by decide)
      (Or.inl ⟨rfl, rfl, rfl, rfl⟩) (by decide) (by decide) (by decide)⟩

/-- Counterexample for C8 as stated: on a row whose three fields all consist
of the single kanji `一`, `add_others_tokens` rewrites only the sentence
field, so its output differs from the spec-described transformation that also
rewrites `subject_entity` and `object_entity`. -/
theorem c8_substitution_counterexample :
    add_others_tokens [⟨['一'], ['一'], ['一']⟩] ≠
      add_others_tokens_allFields [⟨['一'], ['一'], ['一']⟩] := by
  decide

/-- A run of characters outside the regex class passes through the
substitution unchanged, whatever the in-run flag. -/
theorem subOthAux_all_clean (t : List Char) (h : ∀ c ∈ t, isJP c = false) :
    ∀ fl, subOthAux fl t = t := by
  induction t with
  | nil => intro fl; rfl
  | cons c rest ih =>
    intro fl
    have hc : isJP c = false := h c (by simp)
    have hrest : ∀ x ∈ rest, isJP x = false := fun x hx => h x (by simp [hx])
    simp [subOthAux, hc, ih hrest]

/-- A clean prefix distributes over the substitution. -/
theorem subOthAux_clean_append (a x : List Char) (h : ∀ c ∈ a, isJP c = false) :
    subOthAux false (a ++ x) = a ++ subOthAux false x := by
  induction a with
  | nil => simp
  | cons c rest ih =>
    have hc : isJP c = false := h c (by simp)
    have hrest : ∀ y ∈ rest, isJP y = false := fun y hy => h y (by simp [hy])
    simp [subOthAux, hc, ih hrest]

/-- Inside a run, further matching characters are swallowed. -/
theorem subOthAux_run_append (run x : List Char) (h : ∀ c ∈ run, isJP c = true) :
    subOthAux true (run ++ x) = subOthAux true x := by
  induction run with
  | nil => simp
  | cons c rest ih =>
    have hc : isJP c = true := h c (by simp)
    have hrest : ∀ y ∈ rest, isJP y = true := fun y hy => h y (by simp [hy])
    simp [subOthAux, hc, ih hrest]

/-- Continuing inside a matched run: a sentence tail made of alternating
nonempty clean segments and nonempty matching runs, closed by a clean tail,
is substituted segment-wise (the leading clean character of each segment ends
the previous maximal run). -/
theorem subOth_segments_inRun :
    ∀ (segs : List (List Char × List Char)) (tail : List Char),
      (∀ p ∈ segs, ∀ c ∈ p.1, isJP c = false) →
      (∀ p ∈ segs, p.2 ≠ [] ∧ (∀ c ∈ p.2, isJP c = true)) →
      (∀ c ∈ tail, isJP c = false) →
      (∀ p ∈ segs, p.1 ≠ []) →
      subOthAux true ((segs.map (fun p => p.1 ++ p.2)).flatten ++ tail) =
        (segs.map (fun p => p.1 ++ othTok)).flatten ++ tail := by
  intro segs
  induction segs with
  | nil =>
    intro tail _ _ htail _
    simpa using subOthAux_all_clean tail htail true
  | cons p rest ih =>
    obtain ⟨cl, run⟩ := p
    intro tail hclean hrun htail hne
    obtain ⟨hrne, hrjp⟩ := hrun (cl, run) (by simp)
    have hclc : ∀ c ∈ cl, isJP c = false := hclean (cl, run) (by simp)
    cases cl with
    | nil => exact absurd rfl (hne ([], run) (by simp))
    | cons c clt =>
      cases run with
      | nil => exact absurd rfl hrne
      | cons r rt =>
        have hc : isJP c = false := hclc c (by simp)
        have hclt : ∀ y ∈ clt, isJP y = false := fun y hy => hclc y (by simp [hy])
        have hr : isJP r = true := hrjp r (by simp)
        have hrt : ∀ y ∈ rt, isJP y = true := fun y hy => hrjp y (by simp [hy])
        have hX := ih tail (fun q hq => hclean q (by simp [hq]))
          (fun q hq => hrun q (by simp [hq])) htail (fun q hq => hne q (by simp [hq]))
        simp only [List.map_cons, List.flatten_cons, List.cons_append, List.append_assoc]
        simp [subOthAux, hc, hr,
          show ∀ x, subOthAux false (clt ++ x) = clt ++ subOthAux false x from
            fun x => subOthAux_clean_append clt x hclt,
          show ∀ x, subOthAux true (rt ++ x) = subOthAux true x from
            fun x => subOthAux_run_append rt x hrt,
          hX, List.append_assoc]

/-- Substitution of every maximal run: a sentence decomposed into alternating
clean segments and nonempty matching runs (the clean separators after the
first segment nonempty, so each run is maximal), closed by a clean tail, has
every run replaced by one `"[OTH]"` token with all clean text preserved. -/
theorem subOth_segments (segs : List (List Char × List Char)) (tail : List Char)
    (hclean : ∀ p ∈ segs, ∀ c ∈ p.1, isJP c = false)
    (hrun : ∀ p ∈ segs, p.2 ≠ [] ∧ (∀ c ∈ p.2, isJP c = true))
    (htail : ∀ c ∈ tail, isJP c = false)
    (hsep : ∀ p ∈ segs.drop 1, p.1 ≠ []) :
    subOth ((segs.map (fun p => p.1 ++ p.2)).flatten ++ tail) =
      (segs.map (fun p => p.1 ++ othTok)).flatten ++ tail := by
  cases segs with
  | nil => simpa using subOthAux_all_clean tail htail false
  | cons p rest =>
    obtain ⟨cl, run⟩ := p
    obtain ⟨hrne, hrjp⟩ := hrun (cl, run) (by simp)
    have hclc : ∀ c ∈ cl, isJP c = false := hclean (cl, run) (by simp)
    cases run with
    | nil => exact absurd rfl hrne
    | cons r rt =>
      have hr : isJP r = true := hrjp r (by simp)
      have hrt : ∀ y ∈ rt, isJP y = true := fun y hy => hrjp y (by simp [hy])
      have hB := subOth_segments_inRun rest tail
        (fun q hq => hclean q (by simp [hq]))
        (fun q hq => hrun q (by simp [hq])) htail
        (fun q hq => hsep q (by simpa using hq))
      unfold subOth
      simp only [List.map_cons, List.flatten_cons, List.cons_append, List.append_assoc]
      rw [subOthAux_clean_append cl _ hclc]
      simp [subOthAux, hr,
        show ∀ x, subOthAux true (rt ++ x) = subOthAux true x from
          fun x => subOthAux_run_append rt x hrt,
        hB, List.append_assoc]

/-- C8 (amended): script normalization detects every maximal run of the fixed
Unicode-range class and substitutes the whole run with the literal `"[OTH]"`
token, but it is applied to the `sentence` field only — `subject_entity` and
`object_entity` pass through unchanged.  Stated for a row at an arbitrary
position of the table (the surrounding rows `pre`/`post` arbitrary) whose
sentence decomposes into any number of maximal runs separated by nonempty
clean segments and closed by a clean tail. -/
theorem c8_others_token_substitution (pre post : List Row)
    (segs : List (List Char × List Char)) (tail subj obj : List Char)
    (hclean : ∀ p ∈ segs, ∀ c ∈ p.1, isJP c = false)
    (hrun : ∀ p ∈ segs, p.2 ≠ [] ∧ (∀ c ∈ p.2, isJP c = true))
    (htail : ∀ c ∈ tail, isJP c = false)
    (hsep : ∀ p ∈ segs.drop 1, p.1 ≠ []) :
    add_others_tokens
        (pre ++ ⟨(segs.map (fun p => p.1 ++ p.2)).flatten ++ tail, subj, obj⟩ :: post) =
      add_others_tokens pre ++
        ⟨(segs.map (fun p => p.1 ++ othTok)).flatten ++ tail, subj, obj⟩ ::
          add_others_tokens post := by
  have hsub := subOth_segments segs tail hclean hrun htail hsep
  simp [add_others_tokens, hsub]

/-- Witness for C8: a middle row whose sentence `"x一 一y"` holds two maximal
kanji runs becomes `"x[OTH] [OTH]y"`, its entity fields untouched, with one
untouched-entity row on each side. -/
theorem c8_others_token_substitution_witness :
    ((∀ p ∈ ([(['x'], ['一']), ([' '], ['一'])] : List (List Char × List Char)),
        ∀ c ∈ p.1, isJP c = false) ∧
      (∀ p ∈ ([(['x'], ['一']), ([' '], ['一'])] : List (List Char × List Char)),
        p.2 ≠ [] ∧ (∀ c ∈ p.2, isJP c = true)) ∧
      (∀ c ∈ (['y'] : List Char), isJP c = false) ∧
      (∀ p ∈ ([(['x'], ['一']), ([' '], ['一'])] : List (List Char × List Char)).drop 1,
        p.1 ≠ [])) ∧
      add_others_tokens
          ([⟨['a'], ['b'], ['c']⟩] ++
            ⟨(([(['x'], ['一']), ([' '], ['一'])] : List (List Char × List Char)).map
                (fun p => p.1 ++ p.2)).flatten ++ ['y'], ['一'], ['一']⟩ ::
              [⟨['d'], ['e'], ['f']⟩]) =
        add_others_tokens [⟨['a'], ['b'], ['c']⟩] ++
          ⟨(([(['x'], ['一']), ([' '], ['一'])] : List (List Char × List Char)).map
              (fun p => p.1 ++ othTok)).flatten ++ ['y'], ['一'], ['一']⟩ ::
            add_others_tokens [⟨['d'], ['e'], ['f']⟩] :=
  ⟨⟨by decide, by decide, by decide, by decide⟩,
    c8_others_token_substitution [⟨['a'], ['b'], ['c']⟩] [⟨['d'], ['e'], ['f']⟩]
      [(['x'], ['一']), ([' '], ['一'])] ['y'] ['一'] ['一']
      (by decide) (by decide) (by decide) (by decide)⟩

/-- When the index is in range for every keyed tensor, the dict comprehension
of `__getitem__` returns the keyed family of `i`-th entries. -/
theorem itemInputs_all_inbounds {α : Type} (i : Nat) (da : α) :
    ∀ L : List (String × List α), (∀ kv ∈ L, i < kv.2.length) →
      itemInputs i L = some (L.map (fun kv => (kv.1, kv.2.getD i da))) := by
  intro L
  induction L with
  | nil => intro h; rfl
  | cons kv rest ih =>
    obtain ⟨k, v⟩ := kv
    intro h
    have hv : i < v.length := h (k, v) (by simp)
    have hrest : ∀ x ∈ rest, i < x.2.length := fun x hx => h x (by simp [hx])
    have hx : v[i]? = some (v.get ⟨i, hv⟩) := by
      rw [List.getElem?_eq_getElem hv, List.get_eq_getElem]
    simp [itemInputs, hx, ih hrest]

/-- C9: the `Dataset` length is the number of `input_ids` rows; with a
non-empty target list indexing returns the pair of the `i`-th input mapping
and the `i`-th target, and with an empty target list (inference-only mode) it
returns the input mapping alone. -/
theorem c9_dataset_indexing {α β : Type} (d : Dataset α β) (i : Nat) (ids : List α)
    (da : α) (db : β)
    (hids : d.inputs.lookup "input_ids" = some ids)
    (hall : ∀ kv ∈ d.inputs, i < kv.2.length)
    (htar : d.targets = [] ∨ i < d.targets.length) :
    Dataset.len d = some ids.length ∧
      (d.targets = [] →
        Dataset.getItem d i =
          some (Sum.inl (d.inputs.map (fun kv => (kv.1, kv.2.getD i da))))) ∧
      (d.targets ≠ [] →
        Dataset.getItem d i =
          some (Sum.inr (d.inputs.map (fun kv => (kv.1, kv.2.getD i da)),
            d.targets.getD i db))) := by
  refine ⟨by simp [Dataset.len, hids], ?_, ?_⟩
  · intro hemp
    simp [Dataset.getItem, itemInputs_all_inbounds i da d.inputs hall, hemp]
  · intro hne
    have hlt : i < d.targets.length := htar.resolve_left hne
    have hx : d.targets[i]? = some (d.targets.get ⟨i, hlt⟩) := by
      rw [List.getElem?_eq_getElem hlt, List.get_eq_getElem]
    have hne' : d.targets.isEmpty = false := by
      cases ht : d.targets with
      | nil => exact absurd ht hne
      | cons x xs => rfl
    simp [Dataset.getItem, itemInputs_all_inbounds i da d.inputs hall, hne', hx]

/-- Witness for C9 at the concrete dataset `c9ds` (two keyed tensors of two
rows, one target) indexed at 0. -/
theorem c9_dataset_indexing_witness :
    (∀ kv ∈ c9ds.inputs, 0 < kv.2.length) ∧
      (Dataset.len c9ds = some ([10, 11] : List Nat).length ∧
        (c9ds.targets = [] →
          Dataset.getItem c9ds 0 =
            some (Sum.inl (c9ds.inputs.map (fun kv => (kv.1, kv.2.getD 0 0))))) ∧
        (c9ds.targets ≠ [] →
          Dataset.getItem c9ds 0 =
            some (Sum.inr (c9ds.inputs.map (fun kv => (kv.1, kv.2.getD 0 0)),
              c9ds.targets.getD 0 0)))) :=
  ⟨by decide,
    c9_dataset_indexing c9ds 0 [10, 11] 0 0 (by decide) (by decide) (Or.inr (by decide))⟩

/-- The accumulation loop building `concat_entity` equals an accumulator
followed by the per-row map. -/
theorem concatLoop_eq :
    ∀ (l : List (List Char × List Char)) (acc : List (List Char)),
      l.foldl (fun acc p => acc ++ [p.2 ++ sepTok ++ p.1]) acc =
        acc ++ l.map (fun p => p.2 ++ sepTok ++ p.1) := by
  intro l
  induction l with
  | nil => intro acc; simp
  | cons p rest ih =>
    intro acc
    rw [List.foldl_cons, ih (acc ++ [p.2 ++ sepTok ++ p.1])]
    simp [List.append_assoc]

/-- C10: the tokenizing step pairs, for each row in table order, the first
text `object_entity ++ " [SEP] " ++ subject_entity` (object before subject)
with the row's sentence — exactly one paired example per row. -/
theorem c10_tokenizing_pairs (df : List Row) :
    Dataloader.tokenizing df =
      df.map (fun r => (r.object_entity ++ sepTok ++ r.subject_entity, r.sentence)) := by
  unfold Dataloader.tokenizing
  rw [concatLoop_eq, List.nil_append, List.zip_map', List.map_map, List.zip_map']
  rfl
